import Mathlib

/-!
# Verification of the stock-analysis service

A shallow embedding of `src/server/src/Orders/Services/stockAnalyzis.ts`
(the single exported operation `stockAnalyzisBulk`), together with proofs
settling the behavioural claims about it.

Modelling conventions:
* JS numbers holding stock quantities and sales are modelled as `Int`
  (all arithmetic performed on them in the source is exact integer
  arithmetic); the two derived fields that go through
  `parseFloat((x).toFixed(2))` are modelled as exact rationals rounded to
  two decimal places (`round2`).
* JS objects used as string-keyed maps are modelled as association lists
  that update an existing key in place and append new keys at the end,
  which is the enumeration-order semantics of JS objects for the
  non-numeric keys used here (month names, product ids).
* The `await Order.find()` fetch is external to the repository; the core
  is therefore a function of the fetched value, and the outer try/catch
  is modelled by `stockAnalyzisBulk` taking the fetch outcome as an
  `Except` value.
-/

set_option autoImplicit false

namespace StockAnalyzis

/-- A raw product row inside one monthly snapshot (`order.rows[i]`). -/
structure RawRow where
  productId : String
  productName : String
  stockStatus : Int
  deriving DecidableEq, Repr, Inhabited

/-- One monthly snapshot (`order`): `name` is the month identifier, and
`rows` is the raw row list, `none` standing for a missing / non-array
`rows` field (the source guards with `Array.isArray`). The two
already-materialized summary fields excluded by `.select(...)` are not
read by the core and are not modelled. -/
structure Order where
  name : String
  rows : Option (List RawRow)
  deriving DecidableEq, Repr, Inhabited

/-- The `Product` interface of the source: used both for consolidated
per-month records (with placeholder analytic fields) and for the final
output records. -/
structure Product where
  productId : String
  productName : String
  stockStatus : Int
  leftOver : Int
  availability : String
  average : Rat
  totalSales : Int
  months : Nat
  enoughForMonths : Rat
  deriving DecidableEq, Repr, Inhabited

/-- Nearest integer to the exact quotient `p / q` (for `q > 0`), ties
rounded up: `⌊p / q + 1 / 2⌋ = ⌊(2 p + q) / (2 q)⌋`. -/
def roundHalfUp (p q : Int) : Int :=
  Int.fdiv (2 * p + q) (2 * q)

/-- Exact-rational model of `parseFloat((p / q).toFixed(2))` for `q > 0`:
the exact quotient rounded to two decimal places (ties rounded up; every
value reached in the claims is an exact two-decimal quantity, so neither
the tie rule nor binary-float error is ever exercised). -/
def toFixed2 (p q : Int) : Rat :=
  mkRat (roundHalfUp (100 * p) q) 100

/-- Source lines 32-49: process one raw row against the per-month map
`consolidatedStocks`. On a repeat `productId` the row's `stockStatus` is
added to the existing record (first occurrence keeps its position and
its `productName`); on a first encounter a fresh record with placeholder
analytic fields is appended. -/
def addRow : List Product → RawRow → List Product
  | [], row =>
      [{ productId := row.productId
         productName := row.productName
         stockStatus := row.stockStatus
         leftOver := 0
         availability := "Unknown"
         average := 0
         totalSales := 0
         months := 0
         enoughForMonths := 0 }]
  | p :: rest, row =>
      if p.productId == row.productId then
        { p with stockStatus := p.stockStatus + row.stockStatus } :: rest
      else
        p :: addRow rest row

/-- Source lines 29-49: consolidate one month's raw rows
(`Object.values(consolidatedStocks)`, in first-encounter order). -/
def consolidate (rows : List RawRow) : List Product :=
  rows.foldl addRow []

/-- `monthlyConsolidatedData[order.name] = ...` — JS object assignment:
overwrite an existing key in place, otherwise append the key at the end. -/
def insertMonth (data : List (String × List Product)) (k : String)
    (v : List Product) : List (String × List Product) :=
  if data.any (fun kv => kv.1 == k) then
    data.map (fun kv => if kv.1 == k then (kv.1, v) else kv)
  else
    data ++ [(k, v)]

/-- Source lines 23-53: the month-name-keyed map of consolidated
records, built snapshot by snapshot.  A missing `rows` field is treated
as the empty row list. -/
def buildMonthly (orders : List Order) : List (String × List Product) :=
  orders.foldl (fun data o => insertMonth data o.name (consolidate (o.rows.getD []))) []

/-- `monthlyConsolidatedData[k]` for a key `k` drawn from the map's own
keys (the source only ever looks up such keys, so the `[]` default is
unreachable there). -/
def monthLookup (data : List (String × List Product)) (k : String) : List Product :=
  (((data.find? (fun kv => kv.1 == k)).map (fun kv => kv.2)).getD [])

/-- Lexicographic comparison of character lists by code point — the
comparison JS `Array.prototype.sort` applies to the month-name strings
(identical to UTF-16 code-unit order on the basic multilingual plane,
which contains every month identifier). -/
def charListLt : List Char → List Char → Bool
  | [], [] => false
  | [], _ :: _ => true
  | _ :: _, [] => false
  | a :: as, b :: bs =>
      if Nat.blt a.toNat b.toNat then true
      else if Nat.blt b.toNat a.toNat then false
      else charListLt as bs

/-- String comparison used by the key sort. -/
def keyLt (a b : String) : Bool :=
  charListLt a.data b.data

/-- Insertion step of the lexicographic key sort. -/
def insertKey (x : String) : List String → List String
  | [] => [x]
  | y :: ys => if keyLt x y then x :: y :: ys else y :: insertKey x ys

/-- `Object.keys(monthlyConsolidatedData).sort()` (source line 71): the
month keys in ascending lexicographic order.  The keys of `buildMonthly`
are pairwise distinct, so any sorting algorithm agrees with JS
`Array.prototype.sort` here. -/
def sortKeys (l : List String) : List String :=
  l.foldr insertKey []

/-- Source lines 57-62: gather the distinct product ids across all
months (`Set` insertion order). -/
def gatherIds (data : List (String × List Product)) : List String :=
  data.foldl
    (fun acc kv =>
      kv.2.foldl
        (fun acc2 p => if acc2.contains p.productId then acc2 else acc2 ++ [p.productId])
        acc)
    []

/-- The month keys of the consolidated map, sorted chronologically. -/
def monthKeysOf (data : List (String × List Product)) : List String :=
  sortKeys (data.map (fun kv => kv.1))

/-- The per-month view of one product: for each sorted month key, the
result of `monthData.find(p => p.productId === productId)` (source
lines 77 and 88). -/
def seriesFor (data : List (String × List Product)) (pid : String) :
    List (Option Product) :=
  (monthKeysOf data).map (fun k => (monthLookup data k).find? (fun p => p.productId == pid))

/-- Source lines 75-83 loop body: running maximum of the consolidated
stock over the months where the product appears (`initialStock`). -/
def maxStock (acc : Int) (op : Option Product) : Int :=
  match op with
  | some p => if p.stockStatus > acc then p.stockStatus else acc
  | none => acc

/-- Source lines 67, 75-83: `initialStock`, the peak consolidated stock
(starting from 0). -/
def initialStockOf (series : List (Option Product)) : Int :=
  series.foldl maxStock 0

/-- The mutable locals of the sales walk (source lines 66-72):
`totalSales`, `validMonths`, `previousStock`, `leftOver`. -/
structure WalkState where
  totalSales : Int
  validMonths : Nat
  previousStock : Int
  leftOver : Int
  deriving DecidableEq, Repr, Inhabited

/-- Source lines 86-114, one iteration of `for (let i = 0; ...)`:
* absent product: nothing happens;
* `i === 0`: `previousStock = initialStock`, then the last-month
  leftover check runs;
* `i > 0` with `sales = previousStock - stockStatus > 0`: accumulate the
  sale, count the month, move `previousStock` down, then the last-month
  leftover check runs;
* `i > 0` with `sales <= 0`: `previousStock` is updated and `continue`
  skips the rest of the body — in particular the last-month leftover
  assignment does NOT run on this path. -/
def walkStep (initialStock : Int) (lastIdx : Nat) (i : Nat) (s : WalkState)
    (op : Option Product) : WalkState :=
  match op with
  | none => s
  | some p =>
      if i = 0 then
        let s1 := { s with previousStock := initialStock }
        if i = lastIdx then { s1 with leftOver := p.stockStatus } else s1
      else
        let sales := s.previousStock - p.stockStatus
        if sales > 0 then
          let s1 := { s with
            totalSales := s.totalSales + sales
            validMonths := s.validMonths + 1
            previousStock := p.stockStatus }
          if i = lastIdx then { s1 with leftOver := p.stockStatus } else s1
        else
          { s with previousStock := p.stockStatus }

/-- The indexed loop of source lines 86-114. -/
def walkAux (initialStock : Int) (lastIdx : Nat) :
    Nat → WalkState → List (Option Product) → WalkState
  | _, s, [] => s
  | i, s, op :: rest =>
      walkAux initialStock lastIdx (i + 1) (walkStep initialStock lastIdx i s op) rest

/-- The whole sales walk: all four locals start at 0 (source lines
66-72). -/
def walk (initialStock : Int) (series : List (Option Product)) : WalkState :=
  walkAux initialStock (series.length - 1) 0 ⟨0, 0, 0, 0⟩ series

/-- Source lines 65-143: the per-product analytics record. -/
def analyzeProduct (data : List (String × List Product)) (pid : String) : Product :=
  let series := seriesFor data pid
  let initialStock := initialStockOf series
  let w := walk initialStock series
  let availability := if w.leftOver > 0 then "Available" else "Out of Stock"
  -- `parseFloat((totalSales / validMonths).toFixed(2))`: `averageH` is that
  -- two-decimal value scaled by 100, so `average = averageH / 100` exactly.
  let averageH : Int := roundHalfUp (100 * w.totalSales) (w.validMonths : Int)
  let average : Rat :=
    if w.validMonths > 0 then toFixed2 w.totalSales (w.validMonths : Int) else 0
  -- `parseFloat((leftOver / average).toFixed(2))`: the exact quotient
  -- `leftOver / average` equals `(100 * leftOver) / averageH`.
  let enoughForMonths : Rat :=
    if average > 0 then toFixed2 (100 * w.leftOver) averageH else 0
  let productName :=
    match (monthKeysOf data).head? with
    | some k0 =>
        ((((monthLookup data k0).find? (fun p => p.productId == pid)).map
          (fun p => p.productName)).getD "")
    | none => ""
  { productId := pid
    productName := productName
    stockStatus := initialStock
    leftOver := w.leftOver
    availability := availability
    average := average
    totalSales := w.totalSales
    months := w.validMonths
    enoughForMonths := enoughForMonths }

/-- The pure pipeline applied to the fetched snapshot list (source
lines 21-146): empty input short-circuits to `[]`, otherwise one output
record per distinct product id. -/
def stockAnalysisCore (orders : List Order) : List Product :=
  if orders.isEmpty then []
  else
    let data := buildMonthly orders
    (gatherIds data).map (fun pid => analyzeProduct data pid)

/-- The exported operation (source lines 15-151).  The external fetch is
passed in as its outcome: a raised error, a null result, or the snapshot
list.  The try/catch of lines 16 and 147-150 turns any failure into the
single generic `Error("Error While searching data")`. -/
def stockAnalyzisBulk (fetch : Except String (Option (List Order))) :
    Except String (List Product) :=
  match fetch with
  | Except.error _ => Except.error "Error While searching data"
  | Except.ok none => Except.ok []
  | Except.ok (some orders) => Except.ok (stockAnalysisCore orders)

/-! ## The walk as the specification words it

For the refinement comparison in claim C4 only: the sales walk transcribed
from the specification's wording (§4.2) — the running previous-stock value
starts at the peak stock before any month is examined ("At i = 0,
initialize a running previous stock value to the peak stock"), months
after the first apply the sales rule when the product is present, and an
absent month leaves the state unchanged.  This definition follows the
claim's words, not the source, and is compared against `walk` above. -/

/-- One month of the specification-worded walk (months after the first). -/
def specStep (s : WalkState) (op : Option Product) : WalkState :=
  match op with
  | none => s
  | some p =>
      let sales := s.previousStock - p.stockStatus
      if sales > 0 then
        { s with
          totalSales := s.totalSales + sales
          validMonths := s.validMonths + 1
          previousStock := p.stockStatus }
      else
        { s with previousStock := p.stockStatus }

/-- The specification-worded walk: baseline = peak from the start,
unconditionally; the first month contributes no sale. -/
def specSalesWalk (peak : Int) (series : List (Option Product)) : WalkState :=
  (series.drop 1).foldl specStep { totalSales := 0, validMonths := 0, previousStock := peak, leftOver := 0 }

/-! ## Concrete inputs used by the claim theorems and witnesses -/

/-- The three-snapshot series of claim C2 / spec §8: product A with
consolidated stock 100, 60, 60. -/
def exC12 : List Order :=
  [ { name := "2024-01", rows := some [⟨"A", "Apple", 100⟩] },
    { name := "2024-02", rows := some [⟨"A", "Apple", 60⟩] },
    { name := "2024-03", rows := some [⟨"A", "Apple", 60⟩] } ]

/-- Product B present every month with stock 10, 20, 30 — never strictly
decreasing month over month. -/
def exC3 : List Order :=
  [ { name := "2024-01", rows := some [⟨"B", "Banana", 10⟩] },
    { name := "2024-02", rows := some [⟨"B", "Banana", 20⟩] },
    { name := "2024-03", rows := some [⟨"B", "Banana", 30⟩] } ]

/-- Product A absent from the first month, then stock 30, 80. -/
def exC4 : List Order :=
  [ { name := "2024-01", rows := some [] },
    { name := "2024-02", rows := some [⟨"A", "Apple", 30⟩] },
    { name := "2024-03", rows := some [⟨"A", "Apple", 80⟩] } ]

/-- Product C present every month with constant stock 10. -/
def exFlat : List Order :=
  [ { name := "2024-01", rows := some [⟨"C", "Cherry", 10⟩] },
    { name := "2024-02", rows := some [⟨"C", "Cherry", 10⟩] } ]

/-- Product A with strictly decreasing stock 50, 30, 20. -/
def exDec : List Order :=
  [ { name := "2024-01", rows := some [⟨"A", "Apple", 50⟩] },
    { name := "2024-02", rows := some [⟨"A", "Apple", 30⟩] },
    { name := "2024-03", rows := some [⟨"A", "Apple", 20⟩] } ]

/-! ## Consolidation lemmas (shared by the C6 and C9 proofs) -/

theorem addRow_sum (acc : List Product) (row : RawRow) :
    ((addRow acc row).map (fun p => p.stockStatus)).sum =
      (acc.map (fun p => p.stockStatus)).sum + row.stockStatus := by
  induction acc with
  | nil => simp [addRow]
  | cons p rest ih =>
      by_cases h : p.productId == row.productId
      · simp only [addRow, if_pos h, List.map_cons, List.sum_cons]
        ring
      · simp only [addRow, if_neg h, List.map_cons, List.sum_cons, ih]
        ring

theorem foldl_addRow_sum (rows : List RawRow) :
    ∀ acc : List Product,
      (((rows.foldl addRow acc).map (fun p => p.stockStatus)).sum) =
        (acc.map (fun p => p.stockStatus)).sum + (rows.map (fun r => r.stockStatus)).sum := by
  induction rows with
  | nil => intro acc; simp
  | cons r rest ih =>
      intro acc
      simp only [List.foldl_cons, ih, addRow_sum, List.map_cons, List.sum_cons]
      ring

theorem addRow_find_ne (acc : List Product) (row : RawRow) (pid : String)
    (h : pid ≠ row.productId) :
    (addRow acc row).find? (fun p => p.productId == pid) =
      acc.find? (fun p => p.productId == pid) := by
  have hrow : (row.productId == pid) = false :=
    beq_eq_false_iff_ne.mpr fun he => h he.symm
  induction acc with
  | nil => simp [addRow, List.find?, hrow]
  | cons p rest ih =>
      cases hb : p.productId == row.productId with
      | true =>
          have hpb : (p.productId == pid) = false := by
            have hpeq : p.productId = row.productId := beq_iff_eq.mp hb
            rw [hpeq]; exact hrow
          simp [addRow, hb, List.find?, hpb]
      | false =>
          cases hq : p.productId == pid with
          | true => simp [addRow, hb, List.find?, hq]
          | false => simp [addRow, hb, List.find?, hq, ih]

theorem addRow_find_eq_stock (acc : List Product) (row : RawRow) :
    ((addRow acc row).find? (fun p => p.productId == row.productId)).map
        (fun p => p.stockStatus) =
      some ((((acc.find? (fun p => p.productId == row.productId)).map
          (fun p => p.stockStatus)).getD 0) + row.stockStatus) := by
  induction acc with
  | nil => simp [addRow, List.find?]
  | cons p rest ih =>
      cases hb : p.productId == row.productId with
      | true => simp [addRow, hb, List.find?]
      | false => simp [addRow, hb, List.find?, ih]

theorem addRow_find_eq_name (acc : List Product) (row : RawRow) :
    ((addRow acc row).find? (fun p => p.productId == row.productId)).map
        (fun p => p.productName) =
      some ((((acc.find? (fun p => p.productId == row.productId)).map
          (fun p => p.productName)).getD row.productName)) := by
  induction acc with
  | nil => simp [addRow, List.find?]
  | cons p rest ih =>
      cases hb : p.productId == row.productId with
      | true => simp [addRow, hb, List.find?]
      | false => simp [addRow, hb, List.find?, ih]

theorem foldl_addRow_find_stock (rows : List RawRow) :
    ∀ (acc : List Product) (pid : String),
      ((((rows.foldl addRow acc).find? (fun p => p.productId == pid)).map
          (fun p => p.stockStatus)).getD 0) =
        (((acc.find? (fun p => p.productId == pid)).map (fun p => p.stockStatus)).getD 0) +
          ((rows.filter (fun r => r.productId == pid)).map (fun r => r.stockStatus)).sum := by
  induction rows with
  | nil => intro acc pid; simp
  | cons r rest ih =>
      intro acc pid
      rw [List.foldl_cons, ih]
      cases hr : r.productId == pid with
      | true =>
          have hre : r.productId = pid := beq_iff_eq.mp hr
          rw [← hre]
          rw [addRow_find_eq_stock]
          simp [List.filter_cons, hre]
          ring
      | false =>
          have hne : pid ≠ r.productId := fun he => by
            rw [he] at hr; simp at hr
          rw [addRow_find_ne acc r pid hne]
          simp [List.filter_cons, hr]

theorem foldl_addRow_find_isSome (rows : List RawRow) :
    ∀ (acc : List Product) (pid : String),
      ((rows.foldl addRow acc).find? (fun p => p.productId == pid)).isSome =
        (((acc.find? (fun p => p.productId == pid)).isSome) ||
          rows.any (fun r => r.productId == pid)) := by
  induction rows with
  | nil => intro acc pid; simp
  | cons r rest ih =>
      intro acc pid
      rw [List.foldl_cons, ih]
      cases hr : r.productId == pid with
      | true =>
          have hre : r.productId = pid := beq_iff_eq.mp hr
          have h1 : ((addRow acc r).find? (fun p => p.productId == pid)).isSome = true := by
            rw [← hre]
            have := addRow_find_eq_stock acc r
            cases hfind : (addRow acc r).find? (fun p => p.productId == r.productId) with
            | none => rw [hfind] at this; simp at this
            | some q => simp
          rw [h1]
          simp [List.any_cons, hr]
      | false =>
          have hne : pid ≠ r.productId := fun he => by
            rw [he] at hr; simp at hr
          rw [addRow_find_ne acc r pid hne]
          simp [List.any_cons, hr]

theorem foldl_addRow_find_name (rows : List RawRow) :
    ∀ (acc : List Product) (pid : String),
      ((rows.foldl addRow acc).find? (fun p => p.productId == pid)).map
          (fun p => p.productName) =
        (((acc.find? (fun p => p.productId == pid)).map (fun p => p.productName)).or
          ((rows.find? (fun r => r.productId == pid)).map (fun r => r.productName))) := by
  induction rows with
  | nil => intro acc pid; simp
  | cons r rest ih =>
      intro acc pid
      rw [List.foldl_cons, ih]
      cases hr : r.productId == pid with
      | true =>
          have hre : r.productId = pid := beq_iff_eq.mp hr
          have h1 := addRow_find_eq_name acc r
          rw [hre] at h1
          rw [h1]
          rw [List.find?, hr]
          cases hacc : (acc.find? (fun p => p.productId == pid)).map (fun p => p.productName) with
          | none => simp
          | some nm => simp
      | false =>
          have hne : pid ≠ r.productId := fun he => by
            rw [he] at hr; simp at hr
          rw [addRow_find_ne acc r pid hne]
          rw [List.find?, hr]

theorem addRow_ids (acc : List Product) (row : RawRow) :
    (addRow acc row).map (fun p => p.productId) =
      if acc.any (fun p => p.productId == row.productId) then
        acc.map (fun p => p.productId)
      else acc.map (fun p => p.productId) ++ [row.productId] := by
  induction acc with
  | nil => simp [addRow]
  | cons p rest ih =>
      cases hb : p.productId == row.productId with
      | true => simp [addRow, hb]
      | false =>
          simp only [addRow, hb, Bool.false_eq_true, if_false, List.map_cons, ih,
            List.any_cons, Bool.false_or]
          split <;> simp

theorem addRow_ids_nodup (acc : List Product) (row : RawRow)
    (h : (acc.map (fun p => p.productId)).Nodup) :
    ((addRow acc row).map (fun p => p.productId)).Nodup := by
  rw [addRow_ids]
  cases hf : acc.any (fun p => p.productId == row.productId) with
  | true => simpa [hf] using h
  | false =>
      rw [if_neg (by simp [hf])]
      have hnotmem : row.productId ∉ acc.map (fun p => p.productId) := by
        intro hmem
        obtain ⟨p, hp, hpe⟩ := List.mem_map.mp hmem
        have hany : acc.any (fun q => q.productId == row.productId) = true :=
          List.any_eq_true.mpr ⟨p, hp, by simp [hpe]⟩
        rw [hf] at hany
        exact Bool.false_ne_true hany
      rw [List.nodup_append]
      exact ⟨h, List.nodup_singleton _, by simpa using hnotmem⟩

theorem foldl_addRow_ids_nodup (rows : List RawRow) :
    ∀ acc : List Product,
      (acc.map (fun p => p.productId)).Nodup →
      ((rows.foldl addRow acc).map (fun p => p.productId)).Nodup := by
  induction rows with
  | nil => intro acc h; simpa using h
  | cons r rest ih =>
      intro acc h
      rw [List.foldl_cons]
      exact ih _ (addRow_ids_nodup acc r h)

/-! ## Walk lemmas (shared by the C3, C4, C5 and C10 proofs) -/

theorem walkStep_none (init : Int) (lastIdx i : Nat) (s : WalkState) :
    walkStep init lastIdx i s none = s := rfl

theorem walkStep_zero (init : Int) (lastIdx : Nat) (s : WalkState) (p : Product) :
    (walkStep init lastIdx 0 s (some p)).previousStock = init ∧
    (walkStep init lastIdx 0 s (some p)).totalSales = s.totalSales ∧
    (walkStep init lastIdx 0 s (some p)).validMonths = s.validMonths := by
  by_cases hL : (0 : Nat) = lastIdx
  · simp [walkStep, ← hL]
  · simp [walkStep, hL]

theorem walkStep_pos (init : Int) (lastIdx i : Nat) (s : WalkState) (p : Product)
    (hi : i ≠ 0) (hpos : s.previousStock - p.stockStatus > 0) :
    (walkStep init lastIdx i s (some p)).totalSales
        = s.totalSales + (s.previousStock - p.stockStatus) ∧
    (walkStep init lastIdx i s (some p)).validMonths = s.validMonths + 1 ∧
    (walkStep init lastIdx i s (some p)).previousStock = p.stockStatus := by
  by_cases hL : i = lastIdx
  · simp [walkStep, hi, ← hL, hpos]
  · simp [walkStep, hi, hL, hpos]

theorem walkStep_nonpos (init : Int) (lastIdx i : Nat) (s : WalkState) (p : Product)
    (hi : i ≠ 0) (hnp : ¬ s.previousStock - p.stockStatus > 0) :
    walkStep init lastIdx i s (some p) = { s with previousStock := p.stockStatus } := by
  simp only [walkStep, if_neg hi, if_neg hnp]

theorem walkStep_leftOver (init : Int) (lastIdx i : Nat) (s : WalkState)
    (op : Option Product) :
    (walkStep init lastIdx i s op).leftOver = s.leftOver ∨
      ∃ p, op = some p ∧ (walkStep init lastIdx i s op).leftOver = p.stockStatus := by
  cases op with
  | none => exact Or.inl rfl
  | some p =>
      simp only [walkStep]
      split
      · split
        · exact Or.inr ⟨p, rfl, rfl⟩
        · exact Or.inl rfl
      · split
        · split
          · exact Or.inr ⟨p, rfl, rfl⟩
          · exact Or.inl rfl
        · exact Or.inl rfl

theorem walkAux_leftOver (init : Int) (lastIdx : Nat) :
    ∀ (series : List (Option Product)) (i : Nat) (s : WalkState),
      (walkAux init lastIdx i s series).leftOver = s.leftOver ∨
        ∃ p, some p ∈ series ∧ (walkAux init lastIdx i s series).leftOver = p.stockStatus := by
  intro series
  induction series with
  | nil => intro i s; exact Or.inl rfl
  | cons op rest ih =>
      intro i s
      rw [walkAux]
      rcases ih (i + 1) (walkStep init lastIdx i s op) with h | ⟨p, hp, he⟩
      · rcases walkStep_leftOver init lastIdx i s op with h2 | ⟨p, hpe, he2⟩
        · exact Or.inl (h.trans h2)
        · exact Or.inr ⟨p, by simp [hpe], h.trans he2⟩
      · exact Or.inr ⟨p, by simp [hp], he⟩

theorem walk_leftOver (init : Int) (series : List (Option Product)) :
    (walk init series).leftOver = 0 ∨
      ∃ p, some p ∈ series ∧ (walk init series).leftOver = p.stockStatus := by
  have h := walkAux_leftOver init (series.length - 1) series 0 ⟨0, 0, 0, 0⟩
  simpa [walk] using h

theorem le_foldl_maxStock (series : List (Option Product)) :
    ∀ acc : Int, acc ≤ series.foldl maxStock acc := by
  induction series with
  | nil => intro acc; exact le_refl acc
  | cons op rest ih =>
      intro acc
      rw [List.foldl_cons]
      refine le_trans ?_ (ih (maxStock acc op))
      cases op with
      | none => exact le_refl acc
      | some p =>
          simp only [maxStock]
          split
          · exact le_of_lt (by assumption)
          · exact le_refl acc

theorem mem_le_foldl_maxStock (series : List (Option Product)) :
    ∀ (acc : Int) (p : Product), some p ∈ series →
      p.stockStatus ≤ series.foldl maxStock acc := by
  induction series with
  | nil => intro acc p h; simp at h
  | cons op rest ih =>
      intro acc p h
      rw [List.foldl_cons]
      rcases List.mem_cons.mp h with h1 | h2
      · refine le_trans ?_ (le_foldl_maxStock rest (maxStock acc op))
        rw [← h1]
        simp only [maxStock]
        split
        · exact le_refl _
        · exact le_of_not_lt (by assumption)
      · exact ih _ p h2

theorem foldl_maxStock_of_le (series : List (Option Product)) :
    ∀ acc : Int, (∀ p, some p ∈ series → p.stockStatus ≤ acc) →
      series.foldl maxStock acc = acc := by
  induction series with
  | nil => intro acc _; rfl
  | cons op rest ih =>
      intro acc hall
      rw [List.foldl_cons]
      have hstep : maxStock acc op = acc := by
        cases op with
        | none => rfl
        | some p =>
            have hp := hall p (by simp)
            simp only [maxStock]
            rw [if_neg (not_lt.mpr hp)]
      rw [hstep]
      exact ih acc (fun p hp => hall p (List.mem_cons_of_mem _ hp))

theorem initialStockOf_nonneg (series : List (Option Product)) :
    0 ≤ initialStockOf series :=
  le_foldl_maxStock series 0

theorem stock_le_initialStockOf (series : List (Option Product)) (p : Product)
    (h : some p ∈ series) : p.stockStatus ≤ initialStockOf series :=
  mem_le_foldl_maxStock series 0 p h

/-! ## Reading an output record back as a product analysis -/

theorem analyzeProduct_productId (data : List (String × List Product)) (pid : String) :
    (analyzeProduct data pid).productId = pid := rfl

theorem analyzeProduct_stockStatus (data : List (String × List Product)) (pid : String) :
    (analyzeProduct data pid).stockStatus = initialStockOf (seriesFor data pid) := rfl

theorem analyzeProduct_leftOver (data : List (String × List Product)) (pid : String) :
    (analyzeProduct data pid).leftOver =
      (walk (initialStockOf (seriesFor data pid)) (seriesFor data pid)).leftOver := rfl

theorem analyzeProduct_totalSales (data : List (String × List Product)) (pid : String) :
    (analyzeProduct data pid).totalSales =
      (walk (initialStockOf (seriesFor data pid)) (seriesFor data pid)).totalSales := rfl

theorem analyzeProduct_months (data : List (String × List Product)) (pid : String) :
    (analyzeProduct data pid).months =
      (walk (initialStockOf (seriesFor data pid)) (seriesFor data pid)).validMonths := rfl

theorem analyzeProduct_average (data : List (String × List Product)) (pid : String) :
    (analyzeProduct data pid).average =
      if (walk (initialStockOf (seriesFor data pid)) (seriesFor data pid)).validMonths > 0
      then toFixed2
          (walk (initialStockOf (seriesFor data pid)) (seriesFor data pid)).totalSales
          ((walk (initialStockOf (seriesFor data pid)) (seriesFor data pid)).validMonths : Int)
      else 0 := rfl

theorem analyzeProduct_enough (data : List (String × List Product)) (pid : String) :
    (analyzeProduct data pid).enoughForMonths =
      if (analyzeProduct data pid).average > 0
      then toFixed2
          (100 * (walk (initialStockOf (seriesFor data pid)) (seriesFor data pid)).leftOver)
          (roundHalfUp
            (100 * (walk (initialStockOf (seriesFor data pid)) (seriesFor data pid)).totalSales)
            ((walk (initialStockOf (seriesFor data pid)) (seriesFor data pid)).validMonths : Int))
      else 0 := rfl

theorem eq_analyzeProduct_of_mem (orders : List Order) (rec : Product)
    (h : rec ∈ stockAnalysisCore orders) :
    rec = analyzeProduct (buildMonthly orders) rec.productId := by
  unfold stockAnalysisCore at h
  split at h
  · simp at h
  · obtain ⟨pid, hpid, he⟩ := List.mem_map.mp h
    rw [← he]
    rfl

/-! ## Flat series: all months present with the same stock -/

theorem walkAux_flat (init : Int) (lastIdx : Nat) (c : Int) :
    ∀ (series : List (Option Product)) (i : Nat) (s : WalkState),
      i ≠ 0 → (∀ op ∈ series, op.map (fun p => p.stockStatus) = some c) →
      s.previousStock = c →
      (walkAux init lastIdx i s series).totalSales = s.totalSales ∧
      (walkAux init lastIdx i s series).validMonths = s.validMonths := by
  intro series
  induction series with
  | nil => intro i s _ _ _; exact ⟨rfl, rfl⟩
  | cons op rest ih =>
      intro i s hi hall hprev
      obtain ⟨p, rfl⟩ : ∃ p, op = some p := by
        cases op with
        | none => have := hall none (by simp); simp at this
        | some p => exact ⟨p, rfl⟩
      have hst : p.stockStatus = c := by
        have := hall (some p) (by simp)
        simpa using this
      have hnp : ¬ s.previousStock - p.stockStatus > 0 := by
        rw [hprev, hst]
        simp
      rw [walkAux, walkStep_nonpos init lastIdx i s p hi hnp]
      exact ih (i + 1) _ (by simp) (fun op hop => hall op (by simp [hop])) (by simp [hst])

theorem initialStockOf_flat (series : List (Option Product)) (c : Int)
    (hc : 0 ≤ c) (hne : series ≠ [])
    (hall : ∀ op ∈ series, op.map (fun p => p.stockStatus) = some c) :
    initialStockOf series = c := by
  cases series with
  | nil => exact absurd rfl hne
  | cons op rest =>
      obtain ⟨p, rfl⟩ : ∃ p, op = some p := by
        cases op with
        | none => have := hall none (by simp); simp at this
        | some p => exact ⟨p, rfl⟩
      have hst : p.stockStatus = c := by
        have := hall (some p) (by simp)
        simpa using this
      show (some p :: rest).foldl maxStock 0 = c
      rw [List.foldl_cons]
      have h1 : maxStock 0 (some p) = c := by
        simp only [maxStock, hst]
        by_cases h : c > 0
        · rw [if_pos h]
        · rw [if_neg h]; omega
      rw [h1]
      apply foldl_maxStock_of_le
      intro q hq
      have := hall (some q) (by simp [hq])
      simp at this
      omega

theorem walk_flat (series : List (Option Product)) (c : Int)
    (hc : 0 ≤ c) (hne : series ≠ [])
    (hall : ∀ op ∈ series, op.map (fun p => p.stockStatus) = some c) :
    (walk (initialStockOf series) series).totalSales = 0 ∧
    (walk (initialStockOf series) series).validMonths = 0 := by
  have hinit := initialStockOf_flat series c hc hne hall
  cases series with
  | nil => exact absurd rfl hne
  | cons op rest =>
      obtain ⟨p, rfl⟩ : ∃ p, op = some p := by
        cases op with
        | none => have := hall none (by simp); simp at this
        | some p => exact ⟨p, rfl⟩
      simp only [walk, walkAux]
      have hz := walkStep_zero (initialStockOf (some p :: rest))
        ((some p :: rest).length - 1) ⟨0, 0, 0, 0⟩ p
      have hih := walkAux_flat (initialStockOf (some p :: rest))
        ((some p :: rest).length - 1) c rest 1
        (walkStep (initialStockOf (some p :: rest)) ((some p :: rest).length - 1)
          0 ⟨0, 0, 0, 0⟩ (some p))
        (by simp) (fun op hop => hall op (by simp [hop]))
        (by rw [hz.1]; exact hinit)
      rw [hih.1, hih.2, hz.2.1, hz.2.2]
      exact ⟨rfl, rfl⟩

/-! ## Strictly decreasing series -/

theorem walkAux_strict_dec (init : Int) (lastIdx : Nat) :
    ∀ (series : List (Option Product)) (stocks : List Int) (i : Nat) (s : WalkState),
      i ≠ 0 →
      series.map (Option.map (fun p => p.stockStatus)) = stocks.map some →
      List.Pairwise (fun a b => b < a) (s.previousStock :: stocks) →
      (walkAux init lastIdx i s series).totalSales =
          s.totalSales + (s.previousStock - stocks.getLastD s.previousStock) ∧
      (walkAux init lastIdx i s series).validMonths = s.validMonths + stocks.length := by
  intro series
  induction series with
  | nil =>
      intro stocks i s _ hmap _
      have hstocks : stocks = [] := by
        cases stocks with
        | nil => rfl
        | cons t ts => simp at hmap
      subst hstocks
      constructor
      · simp [walkAux]
      · simp [walkAux]
  | cons op rest ih =>
      intro stocks i s hi hmap hpw
      cases stocks with
      | nil => simp at hmap
      | cons t ts =>
          simp only [List.map_cons, List.cons.injEq] at hmap
          obtain ⟨hop, hrest⟩ := hmap
          obtain ⟨p, rfl⟩ : ∃ p, op = some p := by
            cases op with
            | none => simp at hop
            | some p => exact ⟨p, rfl⟩
          have hpt : p.stockStatus = t := by simpa using hop
          have hlt : t < s.previousStock := (List.pairwise_cons.mp hpw).1 t (by simp)
          have hpos : s.previousStock - p.stockStatus > 0 := by rw [hpt]; omega
          rw [walkAux]
          have hstep := walkStep_pos init lastIdx i s p hi hpos
          have hpw2 : List.Pairwise (fun a b => b < a)
              ((walkStep init lastIdx i s (some p)).previousStock :: ts) := by
            rw [hstep.2.2, hpt]
            exact (List.pairwise_cons.mp hpw).2
          have hih := ih ts (i + 1) (walkStep init lastIdx i s (some p)) (by simp) hrest hpw2
          rw [hih.1, hih.2, hstep.1, hstep.2.1, hstep.2.2, hpt]
          rw [List.getLastD_cons]
          constructor
          · omega
          · simp only [List.length_cons]
            omega

theorem initialStockOf_strict_dec (series : List (Option Product)) (s0 : Int)
    (rest : List Int) (h0 : 0 ≤ s0)
    (hmap : series.map (Option.map (fun p => p.stockStatus)) = (s0 :: rest).map some)
    (hpw : List.Pairwise (fun a b => b < a) (s0 :: rest)) :
    initialStockOf series = s0 := by
  cases series with
  | nil => simp at hmap
  | cons op ser =>
      simp only [List.map_cons, List.cons.injEq] at hmap
      obtain ⟨hop, hrest⟩ := hmap
      obtain ⟨p, rfl⟩ : ∃ p, op = some p := by
        cases op with
        | none => simp at hop
        | some p => exact ⟨p, rfl⟩
      have hps : p.stockStatus = s0 := by simpa using hop
      show (some p :: ser).foldl maxStock 0 = s0
      rw [List.foldl_cons]
      have h1 : maxStock 0 (some p) = s0 := by
        simp only [maxStock, hps]
        by_cases h : s0 > 0
        · rw [if_pos h]
        · rw [if_neg h]; omega
      rw [h1]
      apply foldl_maxStock_of_le
      intro q hq
      have hqs : q.stockStatus ∈ rest := by
        have hmm : some q.stockStatus ∈ rest.map some := by
          rw [← hrest]
          exact List.mem_map_of_mem _ hq
        simpa using hmm
      have := (List.pairwise_cons.mp hpw).1 q.stockStatus hqs
      omega

theorem walk_strict_dec (series : List (Option Product)) (s0 : Int) (rest : List Int)
    (h0 : 0 ≤ s0)
    (hmap : series.map (Option.map (fun p => p.stockStatus)) = (s0 :: rest).map some)
    (hpw : List.Pairwise (fun a b => b < a) (s0 :: rest)) :
    (walk (initialStockOf series) series).totalSales = s0 - rest.getLastD s0 ∧
    (walk (initialStockOf series) series).validMonths = rest.length := by
  have hinit := initialStockOf_strict_dec series s0 rest h0 hmap hpw
  cases series with
  | nil => simp at hmap
  | cons op ser =>
      simp only [List.map_cons, List.cons.injEq] at hmap
      obtain ⟨hop, hrest⟩ := hmap
      obtain ⟨p, rfl⟩ : ∃ p, op = some p := by
        cases op with
        | none => simp at hop
        | some p => exact ⟨p, rfl⟩
      have hps : p.stockStatus = s0 := by simpa using hop
      simp only [walk, walkAux]
      have hz := walkStep_zero (initialStockOf (some p :: ser))
        ((some p :: ser).length - 1) ⟨0, 0, 0, 0⟩ p
      have hpw2 : List.Pairwise (fun a b => b < a)
          ((walkStep (initialStockOf (some p :: ser)) ((some p :: ser).length - 1)
            0 ⟨0, 0, 0, 0⟩ (some p)).previousStock :: rest) := by
        rw [hz.1, hinit]
        exact hpw
      have hih := walkAux_strict_dec (initialStockOf (some p :: ser))
        ((some p :: ser).length - 1) ser rest 1
        (walkStep (initialStockOf (some p :: ser)) ((some p :: ser).length - 1)
          0 ⟨0, 0, 0, 0⟩ (some p))
        (by simp) hrest hpw2
      rw [hih.1, hih.2, hz.1, hz.2.1, hz.2.2, hinit]
      constructor
      · simp
      · simp

theorem mem_insertMonth (data : List (String × List Product)) (k : String)
    (v : List Product) (kv : String × List Product) (h : kv ∈ insertMonth data k v) :
    kv ∈ data ∨ kv.2 = v := by
  unfold insertMonth at h
  split at h
  · obtain ⟨kv0, hkv0, heq⟩ := List.mem_map.mp h
    by_cases hk : kv0.1 == k
    · right
      rw [if_pos hk] at heq
      rw [← heq]
    · left
      rw [if_neg hk] at heq
      rw [← heq]
      exact hkv0
  · rcases List.mem_append.mp h with h1 | h2
    · exact Or.inl h1
    · right
      have : kv = (k, v) := by simpa using h2
      rw [this]

theorem mem_buildMonthly (orders : List Order) :
    ∀ (data : List (String × List Product)) (kv : String × List Product),
      kv ∈ orders.foldl (fun d o => insertMonth d o.name (consolidate (o.rows.getD []))) data →
      kv ∈ data ∨ ∃ o ∈ orders, kv.2 = consolidate (o.rows.getD []) := by
  induction orders with
  | nil => intro data kv h; exact Or.inl h
  | cons o rest ih =>
      intro data kv h
      rw [List.foldl_cons] at h
      rcases ih _ kv h with h1 | ⟨o2, ho2, he⟩
      · rcases mem_insertMonth data o.name _ kv h1 with h2 | h2
        · exact Or.inl h2
        · exact Or.inr ⟨o, by simp, h2⟩
      · exact Or.inr ⟨o2, by simp [ho2], he⟩

/-! ## Claim theorems: concrete claims -/

/-- C1 (code_bug evidence): on the series 100, 60, 60 the product is
present in the chronologically last month with consolidated stock 60,
yet the code reports `leftOver = 0` — the `continue` taken when the last
month's delta is not positive skips the leftover assignment, contrary to
the claim (and to the source's own description of `leftOver` as the
final leftover stock). -/
theorem C1_leftOver_dropped_when_final_delta_nonpositive :
    ((monthLookup (buildMonthly exC12) "2024-03").find?
        (fun p => p.productId == "A")).map (fun p => p.stockStatus) = some 60 ∧
    (stockAnalysisCore exC12).map (fun p => (p.productId, p.leftOver)) = [("A", 0)] := by
  decide

/-- C2 (code_bug evidence): the full output of the code on the spec §8
example series 100, 60, 60.  Peak, totalSales, months and average match
the claim, but `leftOver`, `availability` and `enoughForMonths` come out
as 0 / "Out of Stock" / 0 instead of the claimed 60 / "Available" /
1.50, because the last month's nonpositive delta skips the leftover
assignment. -/
theorem C2_actual_output_on_spec_example :
    stockAnalysisCore exC12 =
      [{ productId := "A", productName := "Apple", stockStatus := 100, leftOver := 0,
         availability := "Out of Stock", average := 40, totalSales := 40, months := 1,
         enoughForMonths := 0 }] ∧
    ¬ ((stockAnalysisCore exC12).map (fun p => (p.leftOver, p.availability, p.enoughForMonths)) =
        [(60, "Available", mkRat 150 100)]) := by
  decide

/-- C3 (counterexample): product B is present in every month with stock
10, 20, 30 — never strictly decreasing — yet the output has
`months = 1` and `totalSales = 10` (the peak 30 is taken as the baseline,
so the first transition 30 → 20 looks like a sale), refuting the claim
that such a product always gets months = totalSales = 0. -/
theorem C3_counterexample :
    (seriesFor (buildMonthly exC3) "B").map (Option.map (fun p => p.stockStatus)) =
      [some 10, some 20, some 30] ∧
    (stockAnalysisCore exC3).map (fun p => (p.productId, p.months, p.totalSales)) =
      [("B", 1, 10)] ∧
    ¬ (∀ p ∈ stockAnalysisCore exC3,
        p.months = 0 ∧ p.totalSales = 0 ∧ p.average = 0 ∧ p.enoughForMonths = 0) := by
  decide

/-- C4 (counterexample): product A is absent from the first month and
then has stock 30, 80, so its peak is 80.  The claimed walk (baseline
set to the peak at index 0) would record one valid sales month with
totalSales = 50; the code's walk leaves the baseline at 0 when the
product is absent from the first month and records no sale at all. -/
theorem C4_counterexample :
    (seriesFor (buildMonthly exC4) "A").map (Option.map (fun p => p.stockStatus)) =
      [none, some 30, some 80] ∧
    initialStockOf (seriesFor (buildMonthly exC4) "A") = 80 ∧
    (specSalesWalk 80 (seriesFor (buildMonthly exC4) "A")).totalSales = 50 ∧
    (stockAnalysisCore exC4).map (fun p => (p.productId, p.totalSales, p.months)) =
      [("A", 0, 0)] ∧
    ¬ ((walk (initialStockOf (seriesFor (buildMonthly exC4) "A"))
          (seriesFor (buildMonthly exC4) "A")).totalSales =
        (specSalesWalk 80 (seriesFor (buildMonthly exC4) "A")).totalSales) := by
  decide

/-- C7: a null fetch result and an empty snapshot list both yield the
empty output list, with no failure: the pipeline short-circuits. -/
theorem C7_empty_or_null_input_yields_empty_list :
    stockAnalyzisBulk (Except.ok none) = Except.ok [] ∧
    stockAnalyzisBulk (Except.ok (some [])) = Except.ok [] ∧
    stockAnalysisCore [] = [] :=
  ⟨rfl, rfl, rfl⟩

/-- C8: every failure of the fetch is re-thrown as the single generic
failure message, a successful fetch yields the full analytics list, and
the caller always receives either a full list or that one failure —
never an incomplete list and never the raw underlying error. -/
theorem C8_all_failures_become_generic_failure :
    (∀ e : String,
      stockAnalyzisBulk (Except.error e) = Except.error "Error While searching data") ∧
    (∀ orders : List Order,
      stockAnalyzisBulk (Except.ok (some orders)) = Except.ok (stockAnalysisCore orders)) ∧
    (∀ fetch : Except String (Option (List Order)),
      (∃ l, stockAnalyzisBulk fetch = Except.ok l) ∨
        stockAnalyzisBulk fetch = Except.error "Error While searching data") := by
  refine ⟨fun e => rfl, fun orders => rfl, fun fetch => ?_⟩
  match fetch with
  | Except.error e => exact Or.inr rfl
  | Except.ok none => exact Or.inl ⟨[], rfl⟩
  | Except.ok (some orders) => exact Or.inl ⟨stockAnalysisCore orders, rfl⟩

/-- C6: consolidation yields at most one record per (month, productId)
pair — every record list stored in the month map has pairwise-distinct
product ids; duplicate rows for one product within a month have their
stock summed (so the consolidated stock of a product is the sum of its
matching raw rows — e.g. 10 and 15 yield 25); and the consolidated
record's name is the first matching row's name. -/
theorem C6_consolidation_merges_duplicate_rows :
    (∀ (orders : List Order) (kv : String × List Product), kv ∈ buildMonthly orders →
      ((kv.2.map (fun p => p.productId)).Nodup)) ∧
    (∀ (o : Order) (pid : String),
      ((consolidate (o.rows.getD [])).find? (fun p => p.productId == pid)).map
          (fun p => p.stockStatus) =
        if (o.rows.getD []).any (fun r => r.productId == pid) then
          some ((((o.rows.getD []).filter (fun r => r.productId == pid)).map
              (fun r => r.stockStatus)).sum)
        else none) ∧
    (∀ (o : Order) (pid : String),
      ((consolidate (o.rows.getD [])).find? (fun p => p.productId == pid)).map
          (fun p => p.productName) =
        ((o.rows.getD []).find? (fun r => r.productId == pid)).map
          (fun r => r.productName)) := by
  refine ⟨?_, ?_, ?_⟩
  · intro orders kv h
    rcases mem_buildMonthly orders [] kv h with h1 | ⟨o, _, he⟩
    · simp at h1
    · rw [he]
      exact foldl_addRow_ids_nodup (o.rows.getD []) [] (by simp)
  · intro o pid
    set rows := o.rows.getD [] with hrows
    cases hfind : (consolidate rows).find? (fun p => p.productId == pid) with
    | none =>
        have hi := foldl_addRow_find_isSome rows [] pid
        rw [show rows.foldl addRow ([] : List Product) = consolidate rows from rfl, hfind] at hi
        have hany : rows.any (fun r => r.productId == pid) = false := by
          simpa using hi.symm
        simp [hany]
    | some q =>
        have hi := foldl_addRow_find_isSome rows [] pid
        rw [show rows.foldl addRow ([] : List Product) = consolidate rows from rfl, hfind] at hi
        have hany : rows.any (fun r => r.productId == pid) = true := by
          simpa using hi.symm
        have hs := foldl_addRow_find_stock rows [] pid
        rw [show rows.foldl addRow ([] : List Product) = consolidate rows from rfl, hfind] at hs
        have hq : q.stockStatus =
            ((rows.filter (fun r => r.productId == pid)).map (fun r => r.stockStatus)).sum := by
          simpa using hs
        simp [hany, hq]
  · intro o pid
    have hn := foldl_addRow_find_name (o.rows.getD []) [] pid
    rw [show (o.rows.getD []).foldl addRow ([] : List Product) =
        consolidate (o.rows.getD []) from rfl] at hn
    simpa using hn

/-- Witness for C6 at a concrete month entry of `exC12`. -/
theorem C6_consolidation_merges_duplicate_rows_witness :
    (((buildMonthly exC12).headI.2.map (fun p => p.productId)).Nodup) :=
  C6_consolidation_merges_duplicate_rows.1 exC12 (buildMonthly exC12).headI (by decide)

/-- C9: consolidation preserves each month's total stock — the sum of
the consolidated records' stock equals the sum over the snapshot's raw
rows. -/
theorem C9_consolidation_preserves_month_total (o : Order) :
    ((consolidate (o.rows.getD [])).map (fun p => p.stockStatus)).sum =
      ((o.rows.getD []).map (fun r => r.stockStatus)).sum := by
  have h := foldl_addRow_sum (o.rows.getD []) []
  simpa [consolidate] using h

/-- C3 (amended): for a product present in every month with the same
non-negative consolidated stock in each month (stock stays flat — the
originally claimed class also allowed strict increases, which
`C3_counterexample` refutes), the output has months = 0, totalSales = 0,
average = 0 and enoughForMonths = 0. -/
theorem C3_flat_stock_yields_zero_stats (orders : List Order) (rec : Product) (c : Int)
    (hmem : rec ∈ stockAnalysisCore orders) (hc : 0 ≤ c)
    (hne : seriesFor (buildMonthly orders) rec.productId ≠ [])
    (hall : ∀ op ∈ seriesFor (buildMonthly orders) rec.productId,
      op.map (fun p => p.stockStatus) = some c) :
    rec.months = 0 ∧ rec.totalSales = 0 ∧ rec.average = 0 ∧ rec.enoughForMonths = 0 := by
  have hrec := eq_analyzeProduct_of_mem orders rec hmem
  have hw := walk_flat (seriesFor (buildMonthly orders) rec.productId) c hc hne hall
  have hm : rec.months = 0 := by
    rw [hrec, analyzeProduct_months]
    exact hw.2
  have ht : rec.totalSales = 0 := by
    rw [hrec, analyzeProduct_totalSales]
    exact hw.1
  have havg : rec.average = 0 := by
    rw [hrec, analyzeProduct_average, hw.2]
    simp
  have henough : rec.enoughForMonths = 0 := by
    rw [hrec, analyzeProduct_enough]
    rw [show (analyzeProduct (buildMonthly orders) rec.productId).average = 0 from
      hrec ▸ havg]
    simp
  exact ⟨hm, ht, havg, henough⟩

/-- Witness for C3 (amended) at the concrete two-month constant series
`exFlat`. -/
theorem C3_flat_stock_yields_zero_stats_witness :
    (stockAnalysisCore exFlat).headI.months = 0 ∧
    (stockAnalysisCore exFlat).headI.totalSales = 0 ∧
    (stockAnalysisCore exFlat).headI.average = 0 ∧
    (stockAnalysisCore exFlat).headI.enoughForMonths = 0 :=
  C3_flat_stock_yields_zero_stats exFlat (stockAnalysisCore exFlat).headI 10
    (by decide) (by decide) (by decide) (by decide)

/-- C5: for a product present in every month whose consolidated stock
strictly decreases every month (and starts non-negative), the output
counts every transition: months = number of months − 1, totalSales =
first-month stock − last-month stock, and the reported peak stockStatus
is the first-month stock. -/
theorem C5_strict_decrease_counts_every_transition (orders : List Order) (rec : Product)
    (s0 : Int) (rest : List Int)
    (hmem : rec ∈ stockAnalysisCore orders)
    (h0 : 0 ≤ s0)
    (hmap : (seriesFor (buildMonthly orders) rec.productId).map
        (Option.map (fun p => p.stockStatus)) = (s0 :: rest).map some)
    (hpw : List.Pairwise (fun a b => b < a) (s0 :: rest)) :
    rec.months = rest.length ∧
    rec.totalSales = s0 - rest.getLastD s0 ∧
    rec.stockStatus = s0 := by
  have hrec := eq_analyzeProduct_of_mem orders rec hmem
  have hw := walk_strict_dec (seriesFor (buildMonthly orders) rec.productId)
    s0 rest h0 hmap hpw
  have hinit := initialStockOf_strict_dec (seriesFor (buildMonthly orders) rec.productId)
    s0 rest h0 hmap hpw
  refine ⟨?_, ?_, ?_⟩
  · rw [hrec, analyzeProduct_months]
    exact hw.2
  · rw [hrec, analyzeProduct_totalSales]
    exact hw.1
  · rw [hrec, analyzeProduct_stockStatus]
    exact hinit

/-- Witness for C5 at the concrete strictly decreasing series `exDec`
(50, 30, 20): two counted months, totalSales 30, peak 50. -/
theorem C5_strict_decrease_counts_every_transition_witness :
    (stockAnalysisCore exDec).headI.months = 2 ∧
    (stockAnalysisCore exDec).headI.totalSales = 30 ∧
    (stockAnalysisCore exDec).headI.stockStatus = 50 := by
  have h := C5_strict_decrease_counts_every_transition exDec
    (stockAnalysisCore exDec).headI 50 [30, 20]
    (by decide) (by decide) (by decide) (by decide)
  refine ⟨h.1, ?_, h.2.2⟩
  simpa using h.2.1

/-- C10: in every output record, the final leftover is bounded by the
reported peak: `leftOver` is either 0 or the consolidated stock of some
month in which the product appears, while `stockStatus` is the maximum
(at least 0) over all such months. -/
theorem C10_leftOver_le_reported_peak (orders : List Order) (rec : Product)
    (hmem : rec ∈ stockAnalysisCore orders) :
    rec.leftOver ≤ rec.stockStatus := by
  have hrec := eq_analyzeProduct_of_mem orders rec hmem
  rw [hrec, analyzeProduct_leftOver, analyzeProduct_stockStatus]
  rcases walk_leftOver (initialStockOf (seriesFor (buildMonthly orders) rec.productId))
      (seriesFor (buildMonthly orders) rec.productId) with h | ⟨p, hp, he⟩
  · rw [h]
    exact initialStockOf_nonneg _
  · rw [he]
    exact stock_le_initialStockOf _ p hp

/-- Witness for C10 at the concrete series `exC12`. -/
theorem C10_leftOver_le_reported_peak_witness :
    (stockAnalysisCore exC12).headI.leftOver ≤ (stockAnalysisCore exC12).headI.stockStatus :=
  C10_leftOver_le_reported_peak exC12 (stockAnalysisCore exC12).headI (by decide)

/-- C4 (amended): the sales walk starts with all four running values at
0, and sets the previous-stock baseline to the peak at index 0 only when
the product is present in the first month (when it is absent there, the
baseline stays 0 until the product's first present month); thereafter a
present month with a positive delta adds it to totalSales, counts the
month and moves the baseline to the current stock; a present month with
a nonpositive delta only moves the baseline to the current stock; and an
absent month changes nothing. -/
theorem C4_walk_baseline_characterization :
    (∀ (init : Int) (series : List (Option Product)),
      walk init series = walkAux init (series.length - 1) 0 ⟨0, 0, 0, 0⟩ series) ∧
    (∀ (init : Int) (lastIdx i : Nat) (s : WalkState),
      walkStep init lastIdx i s none = s) ∧
    (∀ (init : Int) (lastIdx : Nat) (s : WalkState) (p : Product),
      (walkStep init lastIdx 0 s (some p)).previousStock = init ∧
      (walkStep init lastIdx 0 s (some p)).totalSales = s.totalSales ∧
      (walkStep init lastIdx 0 s (some p)).validMonths = s.validMonths) ∧
    (∀ (init : Int) (lastIdx i : Nat) (s : WalkState) (p : Product),
      i ≠ 0 → s.previousStock - p.stockStatus > 0 →
      (walkStep init lastIdx i s (some p)).totalSales
          = s.totalSales + (s.previousStock - p.stockStatus) ∧
      (walkStep init lastIdx i s (some p)).validMonths = s.validMonths + 1 ∧
      (walkStep init lastIdx i s (some p)).previousStock = p.stockStatus) ∧
    (∀ (init : Int) (lastIdx i : Nat) (s : WalkState) (p : Product),
      i ≠ 0 → ¬ s.previousStock - p.stockStatus > 0 →
      walkStep init lastIdx i s (some p) = { s with previousStock := p.stockStatus }) :=
  ⟨fun _ _ => rfl, walkStep_none, walkStep_zero, walkStep_pos, walkStep_nonpos⟩

/-- Witness for C4 (amended): the positive-delta and nonpositive-delta
clauses applied at concrete states. -/
theorem C4_walk_baseline_characterization_witness :
    (walkStep 0 3 1 ⟨0, 0, 100, 0⟩
        (some { productId := "A", productName := "Apple", stockStatus := 60, leftOver := 0,
                availability := "Unknown", average := 0, totalSales := 0, months := 0,
                enoughForMonths := 0 })).totalSales = 40 ∧
    (walkStep 0 3 1 ⟨0, 0, 50, 0⟩
        (some { productId := "A", productName := "Apple", stockStatus := 80, leftOver := 0,
                availability := "Unknown", average := 0, totalSales := 0, months := 0,
                enoughForMonths := 0 })) =
      { totalSales := 0, validMonths := 0, previousStock := 80, leftOver := 0 } := by
  constructor
  · have h := C4_walk_baseline_characterization.2.2.2.1 0 3 1 ⟨0, 0, 100, 0⟩
      { productId := "A", productName := "Apple", stockStatus := 60, leftOver := 0,
        availability := "Unknown", average := 0, totalSales := 0, months := 0,
        enoughForMonths := 0 } (by decide) (by decide)
    simpa using h.1
  · have h := C4_walk_baseline_characterization.2.2.2.2 0 3 1 ⟨0, 0, 50, 0⟩
      { productId := "A", productName := "Apple", stockStatus := 80, leftOver := 0,
        availability := "Unknown", average := 0, totalSales := 0, months := 0,
        enoughForMonths := 0 } (by decide) (by decide)
    simpa using h

end StockAnalyzis
